import Mathlib

/-!
# Verification of the `py-battleship` board game core

Shallow embedding of `app/main.py`: the `Deck`, `Ship` and `Battleship`
classes, their constructors, validation and fire resolution.  Python
integers are modelled as `Int`, the coordinate→ship dictionary as an
insertion-ordered association list whose values are indices into an
arena of ships (Python's shared `Ship` references compare by identity,
which indices model exactly).  Exceptions are modelled with `Except`:
the source defines two exception classes, `InvalidCoordsException` and
`InvalidFieldException`, each carrying a message string.
-/

set_option autoImplicit false

namespace Battleships

/-- One grid cell occupied by a ship (`Deck` dataclass in the source). -/
structure Deck where
  row : Int
  column : Int
  is_alive : Bool
deriving DecidableEq

/-- The two exception classes of the source module. -/
inductive BError where
  | invalidCoords (msg : String)
  | invalidField (msg : String)
deriving DecidableEq

/-- A ship: drowned flag plus its deck list (`Ship` class). -/
structure Ship where
  is_drowned : Bool
  decks : List Deck
deriving DecidableEq

/-- Python's `range(a, b + 1)` over integers: `a, a+1, …, b`, empty when `b < a`. -/
def rangeIncl (a b : Int) : List Int :=
  (List.range (b + 1 - a).toNat).map (fun (i : Nat) => a + (i : Int))

/-- A coordinate, `tuple[int, int]` in the source. -/
abbrev Coord := Int × Int

/-- `Ship.__init__(start, end, is_drowned)`: build the deck list along the
shared row (first branch) or shared column, else raise
`InvalidCoordsException`. -/
def Ship.init (start stop : Coord) (is_drowned : Bool) : Except BError Ship :=
  if start.1 = stop.1 then
    Except.ok ⟨is_drowned,
      (rangeIncl start.2 stop.2).map (fun column => ⟨start.1, column, !is_drowned⟩)⟩
  else if start.2 = stop.2 then
    Except.ok ⟨is_drowned,
      (rangeIncl start.1 stop.1).map (fun row => ⟨row, start.2, !is_drowned⟩)⟩
  else
    Except.error (BError.invalidCoords "coords passed to Ship() are not valid")

/-- `Ship.get_deck(row, column)`: first deck at the coordinate, if any. -/
def Ship.get_deck (s : Ship) (row column : Int) : Option Deck :=
  s.decks.find? (fun d => d.row == row && d.column == column)

/-- Setting `deck.is_alive = False` on the deck object returned by
`get_deck`: replaces the first deck at the coordinate; `none` when no
deck matches (Python would die with an `AttributeError` on `None`). -/
def setFirstDead : List Deck → Int → Int → Option (List Deck)
  | [], _, _ => none
  | d :: ds, row, column =>
    if d.row == row && d.column == column then
      some ({ d with is_alive := false } :: ds)
    else
      (setFirstDead ds row column).map (fun ds' => d :: ds')

/-- `Ship.fire(row, column)`: kill the deck at the coordinate, then set the
drowned flag and report a sunk transition when every deck is dead.
`none` models the `AttributeError` raised when no deck matches. -/
def Ship.fire (s : Ship) (row column : Int) : Option (Ship × Bool) :=
  match setFirstDead s.decks row column with
  | none => none
  | some decks' =>
    if decks'.all (fun d => !d.is_alive) then
      some (⟨true, decks'⟩, true)
    else
      some (⟨s.is_drowned, decks'⟩, false)

/-- The board: the arena of constructed ships and the coordinate→ship-index
map (`self.field`), an insertion-ordered list with pairwise-distinct keys. -/
structure Battleship where
  ships : List Ship
  field : List (Coord × Nat)
deriving DecidableEq

/-- Dictionary lookup `self.field[coord]` / `coord in self.field`. -/
def fieldLookup (field : List (Coord × Nat)) (c : Coord) : Option Nat :=
  (field.find? (fun p => p.1 == c)).map (fun p => p.2)

/-- The f-string `f"cell {coord} is already taken"` (Python tuple repr). -/
def cellTakenMsg (c : Coord) : String :=
  "cell (" ++ toString c.1 ++ ", " ++ toString c.2 ++ ") is already taken"

/-- The placement loop body of `Battleship.__init__`: insert each deck of one
ship into the field, raising `InvalidFieldException` on an occupied cell. -/
def placeDecks (field : List (Coord × Nat)) (idx : Nat) :
    List Deck → Except BError (List (Coord × Nat))
  | [] => Except.ok field
  | d :: ds =>
    let c : Coord := (d.row, d.column)
    if (fieldLookup field c).isSome then
      Except.error (BError.invalidField (cellTakenMsg c))
    else
      placeDecks (field ++ [(c, idx)]) idx ds

/-- The placement loop of `Battleship.__init__`: construct each ship and
place its decks; the arena index of a ship is its position in the list. -/
def placeAll (acc : List Ship) (field : List (Coord × Nat)) :
    List (Coord × Coord) → Except BError (List Ship × List (Coord × Nat))
  | [] => Except.ok (acc, field)
  | (s, e) :: rest => do
    let ship ← Ship.init s e false
    let field' ← placeDecks field acc.length ship.decks
    placeAll (acc ++ [ship]) field' rest

/-- The coordinates of a ship's decks, in deck order. -/
def Ship.coords (s : Ship) : List Coord :=
  s.decks.map (fun d => (d.row, d.column))

/-- Ship arena access `self.field[coord]` resolved through an index. -/
def dfltShip : Ship := ⟨false, []⟩

def dfltDeck : Deck := ⟨0, 0, true⟩

def shipAt (b : Battleship) (i : Nat) : Ship :=
  b.ships.getD i dfltShip

/-- The deck coordinates of ship `i` of the board. -/
def shipCoords (b : Battleship) (i : Nat) : List Coord :=
  (shipAt b i).coords

/-- The ship indices referenced by the field map, with repetition
(`self.field.values()`). -/
def fieldIdxs (b : Battleship) : List Nat :=
  b.field.map (fun p => p.2)

/-- `set(self.field.values())`: the distinct ship instances of the field. -/
def distinctShips (b : Battleship) : List Nat :=
  (fieldIdxs b).dedup

/-- The number of distinct ships of the field having `size` decks
(`counter[size]` over `Counter(len(ship.decks) for ship in ships)`). -/
def countSize (b : Battleship) (size : Nat) : Nat :=
  ((distinctShips b).filter (fun i => (shipAt b i).decks.length == size)).length

/-- `Battleship._validate_ship_count`. -/
def validateShipCount (b : Battleship) : Except BError Unit :=
  if (distinctShips b).length ≠ 10 then
    Except.error (BError.invalidField "the total number of the ships should be 10")
  else if countSize b 1 ≠ 4 then
    Except.error (BError.invalidField "there should be 4 single-deck ships")
  else if countSize b 2 ≠ 3 then
    Except.error (BError.invalidField "there should be 3 double-deck ships")
  else if countSize b 3 ≠ 2 then
    Except.error (BError.invalidField "there should be 2 three-deck ships")
  else if countSize b 4 ≠ 1 then
    Except.error (BError.invalidField "there should be 1 four-deck ship")
  else
    Except.ok ()

/-- The offsets `range(-1, 2)` of the 3×3 neighbourhood scan. -/
def adjOffsets : List Int := [-1, 0, 1]

/-- The inner double loop of `Battleship._validate_ship_positions` for one
occupied cell `c` owned by ship `cur`: is some neighbouring cell occupied
by a different ship instance? -/
def touchesOther (b : Battleship) (c : Coord) (cur : Nat) : Bool :=
  adjOffsets.any (fun ra => adjOffsets.any (fun ca =>
    match fieldLookup b.field (c.1 + ra, c.2 + ca) with
    | some i => i != cur
    | none => false))

/-- `Battleship._validate_ship_positions`: iterate the occupied cells,
resolving each to its ship via the field map. -/
def validateShipPositions (b : Battleship) : Except BError Unit :=
  if (b.field.map (fun p => p.1)).any (fun c =>
      match fieldLookup b.field c with
      | some cur => touchesOther b c cur
      | none => false) then
    Except.error (BError.invalidField "ships shouldn't be located in the neighboring cells")
  else
    Except.ok ()

/-- `Battleship._validate_field`. -/
def validateField (b : Battleship) : Except BError Unit := do
  validateShipCount b
  validateShipPositions b

/-- `Battleship.__init__(ships)`: place every ship, then validate. -/
def Battleship.init (specs : List (Coord × Coord)) : Except BError Battleship := do
  let (ships, field) ← placeAll [] [] specs
  let b : Battleship := ⟨ships, field⟩
  validateField b
  pure b

/-- `Battleship.fire(location)`: `none` models an uncaught exception inside
`Ship.fire`; otherwise the updated board and the returned string. -/
def Battleship.fire (b : Battleship) (loc : Coord) : Option (Battleship × String) :=
  match fieldLookup b.field loc with
  | none => some (b, "Miss!")
  | some i =>
    match (shipAt b i).fire loc.1 loc.2 with
    | none => none
    | some (ship', sunk) =>
      some (⟨b.ships.set i ship', b.field⟩, if sunk then "Sunk!" else "Hit!")

/-- Fire a sequence of shots, collecting the returned strings. -/
def fireSeq (b : Battleship) : List Coord → Option (Battleship × List String)
  | [] => some (b, [])
  | c :: cs =>
    match b.fire c with
    | none => none
    | some (b', r) => (fireSeq b' cs).map (fun p => (p.1, r :: p.2))

/-! ## Spec-side predicates and proof-state descriptions -/

/-- Spec-side spacing property: any two occupied cells lying in each other's
3×3 block (Chebyshev distance ≤ 1, the cell itself included) belong to the
same ship instance. -/
def NoTouch (b : Battleship) : Prop :=
  ∀ c i c' i', fieldLookup b.field c = some i → fieldLookup b.field c' = some i' →
    (c.1 - c'.1).natAbs ≤ 1 → (c.2 - c'.2).natAbs ≤ 1 → i = i'

/-- Spec-side fleet-composition property: the field references exactly 10
distinct ship instances, of which 4 have one deck, 3 have two, 2 have
three and 1 has four. -/
def FleetComposition (b : Battleship) : Prop :=
  (distinctShips b).length = 10 ∧ countSize b 1 = 4 ∧ countSize b 2 = 3 ∧
    countSize b 3 = 2 ∧ countSize b 4 = 1

/-- Invariant established by the placement loop of `Battleship.__init__` and
checked against both components of the board under construction. -/
structure PlaceInv (ships : List Ship) (field : List (Coord × Nat)) : Prop where
  keys_nodup : (field.map (fun p => p.1)).Nodup
  entries : ∀ p ∈ field, p.2 < ships.length ∧ p.1 ∈ (ships.getD p.2 dfltShip).coords
  total : ∀ i, i < ships.length → ∀ c ∈ (ships.getD i dfltShip).coords, (c, i) ∈ field
  nodups : ∀ i, ((ships.getD i dfltShip).coords).Nodup
  fresh : ∀ i, (ships.getD i dfltShip).is_drowned = false ∧
    ∀ d ∈ (ships.getD i dfltShip).decks, d.is_alive = true

/-- Invariant of every board reachable from a successful construction by
firing: the field map is a well-formed dictionary into the ship arena, every
referenced coordinate carries a deck of its ship, and a ship's drowned flag
agrees with its decks. -/
structure InvB (b : Battleship) : Prop where
  keys_nodup : (b.field.map (fun p => p.1)).Nodup
  lookup_lt : ∀ c i, fieldLookup b.field c = some i → i < b.ships.length
  lookup_deck : ∀ c i, fieldLookup b.field c = some i → c ∈ (shipAt b i).coords
  coords_mem : ∀ i, i ∈ fieldIdxs b → ∀ c, c ∈ shipCoords b i → fieldLookup b.field c = some i
  coords_nodup : ∀ i, (shipCoords b i).Nodup
  drowned_iff : ∀ i, i ∈ fieldIdxs b →
    ((shipAt b i).is_drowned = true ↔ ∀ d ∈ (shipAt b i).decks, d.is_alive = false)

/-- The board states reachable under normal use: a successful construction
followed by any sequence of (non-raising) fire calls. -/
inductive Reachable : Battleship → Prop where
  | init (specs : List (Coord × Coord)) (b : Battleship)
      (h : Battleship.init specs = Except.ok b) : Reachable b
  | step (b : Battleship) (loc : Coord) (b' : Battleship) (r : String)
      (hb : Reachable b) (h : b.fire loc = some (b', r)) : Reachable b'

/-- Kill a deck when its coordinate lies in the fired set `fs`. -/
def killIf (fs : List Coord) (d : Deck) : Deck :=
  if (d.row, d.column) ∈ fs then { d with is_alive := false } else d

/-- The state of a (initially fresh) ship after firing at the coordinates in
`fs`: each deck whose coordinate was fired is dead, and the drowned flag
holds exactly when every deck is dead. -/
def firedShip (s0 : Ship) (fs : List Coord) : Ship :=
  ⟨(s0.decks.map (killIf fs)).all (fun d => !d.is_alive), s0.decks.map (killIf fs)⟩

/-- The state of a freshly constructed board after firing the coordinates in
`fs`, all belonging to ship `i`. -/
def firedBoard (b0 : Battleship) (i : Nat) (fs : List Coord) : Battleship :=
  ⟨b0.ships.set i (firedShip (shipAt b0 i) fs), b0.field⟩

/-- The strings `Battleship.fire` returns while firing `rest` one by one at
ship `s0`, having already fired `fs`: at each step `Sunk!` exactly when
every deck coordinate has then been fired, else `Hit!`. -/
def expResults (s0 : Ship) (fs : List Coord) : List Coord → List String
  | [] => []
  | c :: rest =>
    (if (s0.decks.map (killIf (fs ++ [c]))).all (fun d => !d.is_alive) then "Sunk!" else "Hit!")
      :: expResults s0 (fs ++ [c]) rest

/-! ## Concrete placements used in witnesses and examples -/

/-- A rule-satisfying placement: one 4-deck, two 3-deck, three 2-deck and
four 1-deck ships, pairwise non-touching, all inside the 10×10 grid. -/
def demoSpecs : List (Coord × Coord) :=
  [((0, 0), (0, 3)),
   ((2, 0), (2, 2)), ((2, 4), (2, 6)),
   ((4, 0), (4, 1)), ((4, 3), (4, 4)), ((4, 6), (4, 7)),
   ((6, 0), (6, 0)), ((6, 2), (6, 2)), ((6, 4), (6, 4)), ((6, 6), (6, 6))]

/-- The board built from `demoSpecs`. -/
def demoBoard : Battleship :=
  match Battleship.init demoSpecs with
  | Except.ok b => b
  | Except.error _ => ⟨[], []⟩

/-- Ten non-overlapping ships, but only three single-deck ones (one extra
double instead): the fleet-composition check must reject it. -/
def threeSinglesSpecs : List (Coord × Coord) :=
  [((0, 0), (0, 3)),
   ((2, 0), (2, 2)), ((2, 4), (2, 6)),
   ((4, 0), (4, 1)), ((4, 3), (4, 4)), ((4, 6), (4, 7)), ((6, 0), (6, 1)),
   ((8, 0), (8, 0)), ((8, 2), (8, 2)), ((8, 4), (8, 4))]

/-- Two ship specs that both cover the coordinate `(5, 5)`. -/
def overlapSpecs : List (Coord × Coord) :=
  [((5, 4), (5, 5)), ((5, 5), (5, 6))]

/-- `demoSpecs` with the last single-deck ship moved to `(12, 12)`,
outside the 10×10 grid. -/
def oobSpecs : List (Coord × Coord) :=
  [((0, 0), (0, 3)),
   ((2, 0), (2, 2)), ((2, 4), (2, 6)),
   ((4, 0), (4, 1)), ((4, 3), (4, 4)), ((4, 6), (4, 7)),
   ((6, 0), (6, 0)), ((6, 2), (6, 2)), ((6, 4), (6, 4)), ((12, 12), (12, 12))]

/-- The board built from `oobSpecs`. -/
def oobBoard : Battleship :=
  match Battleship.init oobSpecs with
  | Except.ok b => b
  | Except.error _ => ⟨[], []⟩

/-! ## Claim theorems: constructor and simple fire behaviour -/

/-- C4: firing at a coordinate absent from the field map returns `"Miss!"`,
leaves the whole board state unchanged, and raises no exception. -/
theorem fire_unoccupied_misses (b : Battleship) (c : Coord)
    (h : fieldLookup b.field c = none) : b.fire c = some (b, "Miss!") := by
  unfold Battleship.fire
  rw [h]

/-- Witness for `fire_unoccupied_misses`: `(9, 9)` is unoccupied on the demo
board and firing there misses without changing the board. -/
theorem fire_unoccupied_misses_witness :
    fieldLookup demoBoard.field ((9 : Int), (9 : Int)) = none ∧
      demoBoard.fire ((9 : Int), (9 : Int)) = some (demoBoard, "Miss!") :=
  ⟨by decide, fire_unoccupied_misses demoBoard ((9 : Int), (9 : Int)) (by decide)⟩

/-- C5 counterexample: with endpoints `(2, 5)` and `(2, 2)` — which share a
row — the constructed ship has an *empty* deck list, not the four cells of
the inclusive range between the endpoints. -/
theorem ship_reversed_endpoints_empty :
    Ship.init ((2 : Int), (5 : Int)) ((2 : Int), (2 : Int)) false =
      Except.ok ⟨false, []⟩ := rfl

/-- C5 (amended): when the endpoints share a row and the start column is at
most the end column, or share a column and the start row is at most the end
row, the deck sequence is exactly the inclusive ascending range between the
endpoints along the varying axis; with reversed endpoints the deck list is
empty instead. -/
theorem ship_decks_inclusive_range (s e : Coord)
    (h : (s.1 = e.1 ∧ s.2 ≤ e.2) ∨ (s.2 = e.2 ∧ s.1 ≤ e.1)) :
    ∃ sh, Ship.init s e false = Except.ok sh ∧
      sh.decks.map (fun d => (d.row, d.column)) =
        (if s.1 = e.1 then
          (List.range ((e.2 - s.2).toNat + 1)).map (fun (k : Nat) => (s.1, s.2 + (k : Int)))
        else
          (List.range ((e.1 - s.1).toNat + 1)).map (fun (k : Nat) => (s.1 + (k : Int), s.2))) := by
  have hrange : ∀ a b : Int, a ≤ b →
      rangeIncl a b = (List.range ((b - a).toNat + 1)).map (fun (k : Nat) => a + (k : Int)) := by
    intro a b hab
    unfold rangeIncl
    have : (b + 1 - a).toNat = (b - a).toNat + 1 := by omega
    rw [this]
  unfold Ship.init
  by_cases h1 : s.1 = e.1
  · have h2 : s.2 ≤ e.2 := by
      rcases h with ⟨_, h2⟩ | ⟨h2, _⟩
      · exact h2
      · exact le_of_eq h2
    refine ⟨⟨false, (rangeIncl s.2 e.2).map (fun column => ⟨s.1, column, !false⟩)⟩,
      by rw [if_pos h1], ?_⟩
    rw [if_pos h1, hrange _ _ h2]
    simp
  · have h2 : s.2 = e.2 ∧ s.1 ≤ e.1 := by
      rcases h with ⟨h1', _⟩ | h2
      · exact absurd h1' h1
      · exact h2
    refine ⟨⟨false, (rangeIncl s.1 e.1).map (fun row => ⟨row, s.2, !false⟩)⟩, ?_, ?_⟩
    · rw [if_neg h1, if_pos h2.1]
    · rw [if_neg h1, hrange _ _ h2.2]
      simp

/-- Witness for `ship_decks_inclusive_range`: endpoints `(2, 2)`–`(2, 5)`
yield exactly the four decks `(2,2), (2,3), (2,4), (2,5)`. -/
theorem ship_decks_inclusive_range_witness :
    ∃ sh, Ship.init ((2 : Int), (2 : Int)) ((2 : Int), (5 : Int)) false = Except.ok sh ∧
      sh.decks.map (fun d => (d.row, d.column)) =
        (if (2 : Int) = 2 then
          (List.range (((5 : Int) - 2).toNat + 1)).map (fun (k : Nat) => ((2 : Int), (2 : Int) + (k : Int)))
        else
          (List.range (((2 : Int) - 2).toNat + 1)).map (fun (k : Nat) => ((2 : Int) + (k : Int), (2 : Int)))) :=
  ship_decks_inclusive_range ((2 : Int), (2 : Int)) ((2 : Int), (5 : Int))
    (Or.inl ⟨rfl, by decide⟩)

/-- C6: `Ship.__init__` raises `InvalidCoordsException` exactly when the two
endpoints share neither a row nor a column; equal endpoints always produce
a single-deck ship at that point. -/
theorem ship_invalid_coords_iff (s e : Coord) :
    ((∃ msg, Ship.init s e false = Except.error (BError.invalidCoords msg)) ↔
      (s.1 ≠ e.1 ∧ s.2 ≠ e.2)) ∧
    Ship.init s s false = Except.ok ⟨false, [⟨s.1, s.2, true⟩]⟩ := by
  constructor
  · constructor
    · rintro ⟨msg, hmsg⟩
      unfold Ship.init at hmsg
      by_cases h1 : s.1 = e.1
      · rw [if_pos h1] at hmsg
        exact absurd hmsg (by simp)
      · by_cases h2 : s.2 = e.2
        · rw [if_neg h1, if_pos h2] at hmsg
          exact absurd hmsg (by simp)
        · exact ⟨h1, h2⟩
    · rintro ⟨h1, h2⟩
      refine ⟨"coords passed to Ship() are not valid", ?_⟩
      unfold Ship.init
      rw [if_neg h1, if_neg h2]
  · unfold Ship.init
    rw [if_pos rfl]
    have : rangeIncl s.2 s.2 = [s.2] := by
      unfold rangeIncl
      have : (s.2 + 1 - s.2).toNat = 1 := by omega
      rw [this]
      simp [List.range_succ]
    rw [this]
    simp

/-- C7 counterexample: the overlap at `(5, 5)` raises the *same* exception
class as validation failures, `InvalidFieldException` — the source has no
distinct `CellAlreadyTaken` error kind. -/
theorem overlap_error_kind_invalid_field :
    Battleship.init overlapSpecs =
      Except.error (BError.invalidField "cell (5, 5) is already taken") := rfl

/-- C7 (amended): placing a deck on an occupied cell fails during placement
with `InvalidFieldException` carrying the message
`cell (row, column) is already taken`; in particular `overlapSpecs`, whose
two ships both cover `(5, 5)`, fails that way. -/
theorem cell_taken_raises_invalid_field :
    (∀ field idx d ds, (fieldLookup field (d.row, d.column)).isSome = true →
      placeDecks field idx (d :: ds) =
        Except.error (BError.invalidField (cellTakenMsg (d.row, d.column)))) ∧
    Battleship.init overlapSpecs =
      Except.error (BError.invalidField (cellTakenMsg ((5 : Int), (5 : Int)))) := by
  constructor
  · intro field idx d ds h
    unfold placeDecks
    rw [if_pos h]
  · rfl

/-- Witness for `cell_taken_raises_invalid_field`: placing a deck at `(5, 5)`
into a field already holding `(5, 5)` raises the cell-taken error. -/
theorem cell_taken_raises_invalid_field_witness :
    placeDecks [(((5 : Int), (5 : Int)), 0)] 1 [⟨5, 5, true⟩] =
      Except.error (BError.invalidField (cellTakenMsg ((5 : Int), (5 : Int)))) :=
  cell_taken_raises_invalid_field.1 [(((5 : Int), (5 : Int)), 0)] 1 ⟨5, 5, true⟩ [] (by decide)

/-- C10: construction performs no grid-bounds check: `oobSpecs` places a
single-deck ship at `(12, 12)`, construction succeeds, and firing at the
out-of-grid coordinate returns `"Sunk!"` rather than `"Miss!"`. -/
theorem out_of_grid_ship_accepted :
    Battleship.init oobSpecs = Except.ok oobBoard ∧
      (oobBoard.fire ((12 : Int), (12 : Int))).map (fun p => p.2) = some "Sunk!" :=
  ⟨rfl, rfl⟩

/-! ## Validation claims -/

theorem mem_of_fieldLookup {field : List (Coord × Nat)} {c : Coord} {i : Nat}
    (h : fieldLookup field c = some i) : (c, i) ∈ field := by
  unfold fieldLookup at h
  cases hf : field.find? (fun p => p.1 == c) with
  | none => rw [hf] at h; cases h
  | some p =>
    rw [hf] at h
    have hp : p ∈ field := List.mem_of_find?_eq_some hf
    have hc : p.1 = c := by
      have := List.find?_some hf
      simpa using this
    simp only [Option.map_some'] at h
    have : p = (c, i) := by
      cases p
      simp_all
    rwa [this] at hp

theorem spacing_any_iff (b : Battleship) :
    ((b.field.map (fun p => p.1)).any (fun c =>
        match fieldLookup b.field c with
        | some cur => touchesOther b c cur
        | none => false) = true) ↔ ¬ NoTouch b := by
  constructor
  · rw [List.any_eq_true]
    rintro ⟨c, _, hc⟩
    cases hl : fieldLookup b.field c with
    | none => rw [hl] at hc; cases hc
    | some cur =>
      rw [hl] at hc
      unfold touchesOther at hc
      rw [List.any_eq_true] at hc
      obtain ⟨ra, hra, hc⟩ := hc
      rw [List.any_eq_true] at hc
      obtain ⟨ca, hca, hc⟩ := hc
      cases hl2 : fieldLookup b.field (c.1 + ra, c.2 + ca) with
      | none => rw [hl2] at hc; cases hc
      | some i =>
        rw [hl2] at hc
        have hne : i ≠ cur := by simpa using hc
        intro hNT
        apply hne
        have hra' : ra = -1 ∨ ra = 0 ∨ ra = 1 := by simpa [adjOffsets] using hra
        have hca' : ca = -1 ∨ ca = 0 ∨ ca = 1 := by simpa [adjOffsets] using hca
        exact hNT (c.1 + ra, c.2 + ca) i c cur hl2 hl (by simp; omega) (by simp; omega)
  · intro hNT
    rw [NoTouch] at hNT
    push_neg at hNT
    obtain ⟨c, i, c', i', h1, h2, h3, h4, h5⟩ := hNT
    rw [List.any_eq_true]
    refine ⟨c, ?_, ?_⟩
    · exact List.mem_map_of_mem (fun p => p.1) (mem_of_fieldLookup h1)
    · rw [h1]
      unfold touchesOther
      rw [List.any_eq_true]
      refine ⟨c'.1 - c.1, by simp [adjOffsets]; omega, ?_⟩
      rw [List.any_eq_true]
      refine ⟨c'.2 - c.2, by simp [adjOffsets]; omega, ?_⟩
      have hcc : (c.1 + (c'.1 - c.1), c.2 + (c'.2 - c.2)) = c' := by
        cases c'
        simp
      rw [hcc, h2]
      simpa using Ne.symm h5

/-- Helper: splitting a successful `Except` bind. -/
theorem except_bind_ok {α β : Type} {x : Except BError α} {f : α → Except BError β}
    {v : β} (h : (x >>= f) = Except.ok v) : ∃ a, x = Except.ok a ∧ f a = Except.ok v := by
  cases x with
  | error e => simp [Bind.bind, Except.bind] at h
  | ok a => exact ⟨a, rfl, by simpa [Bind.bind, Except.bind] using h⟩

theorem init_ok_split {specs : List (Coord × Coord)} {b : Battleship}
    (h : Battleship.init specs = Except.ok b) :
    placeAll [] [] specs = Except.ok (b.ships, b.field) ∧
      validateShipCount b = Except.ok () ∧ validateShipPositions b = Except.ok () := by
  unfold Battleship.init at h
  obtain ⟨⟨ships, field⟩, hp, h⟩ := except_bind_ok h
  obtain ⟨u, hv, h⟩ := except_bind_ok h
  have hb : b = ⟨ships, field⟩ := by
    simpa [Pure.pure, Except.pure] using h.symm
  unfold validateField at hv
  obtain ⟨u1, hv1, hv2⟩ := except_bind_ok hv
  cases u1
  cases u
  subst hb
  exact ⟨hp, hv1, hv2⟩

/-- C2: the spacing validator accepts a board exactly when no two occupied
cells within one step of each other (diagonals and the cell itself
included) belong to different ship instances; when such a pair exists it
fails with `InvalidFieldException`, and a validly constructed board
therefore never contains one. -/
theorem spacing_valid_iff (b : Battleship) :
    (validateShipPositions b = Except.ok () ↔ NoTouch b) ∧
    (¬ NoTouch b → validateShipPositions b =
      Except.error (BError.invalidField "ships shouldn't be located in the neighboring cells")) ∧
    (∀ specs b', Battleship.init specs = Except.ok b' → NoTouch b') := by
  refine ⟨?_, ?_, ?_⟩
  · unfold validateShipPositions
    by_cases hc : (b.field.map (fun p => p.1)).any (fun c =>
        match fieldLookup b.field c with
        | some cur => touchesOther b c cur
        | none => false) = true
    · rw [if_pos hc]
      simp only [reduceCtorEq, false_iff]
      exact fun hNT => (spacing_any_iff b).mp hc hNT
    · rw [if_neg hc]
      simp only [true_iff]
      by_contra hNT
      exact hc ((spacing_any_iff b).mpr hNT)
  · intro hNT
    unfold validateShipPositions
    rw [if_pos ((spacing_any_iff b).mpr hNT)]
  · intro specs b' h
    have h2 := (init_ok_split h).2.2
    unfold validateShipPositions at h2
    by_cases hc : (b'.field.map (fun p => p.1)).any (fun c =>
        match fieldLookup b'.field c with
        | some cur => touchesOther b' c cur
        | none => false) = true
    · rw [if_pos hc] at h2; cases h2
    · by_contra hNT
      exact hc ((spacing_any_iff b').mpr hNT)

/-- Witness for `spacing_valid_iff`: two single-deck ships on the adjacent
cells `(0, 0)` and `(0, 1)` make the spacing validator fail. -/
theorem spacing_valid_iff_witness :
    validateShipPositions
        ⟨[⟨false, [⟨0, 0, true⟩]⟩, ⟨false, [⟨0, 1, true⟩]⟩],
         [(((0 : Int), (0 : Int)), 0), (((0 : Int), (1 : Int)), 1)]⟩ =
      Except.error (BError.invalidField "ships shouldn't be located in the neighboring cells") :=
  (spacing_valid_iff _).2.1
    (fun h => absurd (h ((0 : Int), (0 : Int)) 0 ((0 : Int), (1 : Int)) 1
      (by decide) (by decide) (by decide) (by decide)) (by decide))

/-- C3: the count validator accepts exactly the boards satisfying the fleet
composition rule, a validly constructed board satisfies it, and the
ten-ship placement with only three single-deck ships is rejected with
`InvalidFieldException`. -/
theorem fleet_composition_enforced :
    (∀ b, validateShipCount b = Except.ok () ↔ FleetComposition b) ∧
    (∀ specs b, Battleship.init specs = Except.ok b → FleetComposition b) ∧
    Battleship.init threeSinglesSpecs =
      Except.error (BError.invalidField "there should be 4 single-deck ships") := by
  have hiff : ∀ b, validateShipCount b = Except.ok () ↔ FleetComposition b := by
    intro b
    unfold validateShipCount FleetComposition
    split_ifs with h1 h2 h3 h4 h5 <;> simp_all
  refine ⟨hiff, ?_, rfl⟩
  intro specs b h
  exact (hiff b).mp (init_ok_split h).2.1

/-- Witness for `fleet_composition_enforced`: the demo board satisfies the
fleet composition rule because its construction succeeded. -/
theorem fleet_composition_enforced_witness : FleetComposition demoBoard :=
  fleet_composition_enforced.2.1 demoSpecs demoBoard (by rfl)

/-! ## List and lookup helper lemmas -/

theorem getD_set_self {α : Type} : ∀ (l : List α) (i : Nat) (a d : α),
    i < l.length → (l.set i a).getD i d = a
  | [], i, _, _, h => absurd h (by simp)
  | _ :: _, 0, _, _, _ => rfl
  | _ :: xs, i + 1, a, d, h => getD_set_self xs i a d (by simpa using h)

theorem getD_set_ne {α : Type} : ∀ (l : List α) (i j : Nat) (a d : α),
    i ≠ j → (l.set i a).getD j d = l.getD j d
  | [], _, _, _, _, _ => rfl
  | _ :: _, 0, 0, _, _, h => absurd rfl h
  | _ :: _, 0, _ + 1, _, _, _ => rfl
  | _ :: _, _ + 1, 0, _, _, _ => rfl
  | _ :: xs, i + 1, j + 1, a, d, h => getD_set_ne xs i j a d (fun hij => h (by omega))

theorem set_self_of_getD {α : Type} : ∀ (l : List α) (i : Nat) (a d : α),
    l.getD i d = a → l.set i a = l
  | [], _, _, _, _ => rfl
  | x :: xs, 0, a, d, h => by
    simp only [List.getD_cons_zero] at h
    simp [h]
  | x :: xs, i + 1, a, d, h => by
    simp only [List.getD_cons_succ] at h
    simp [set_self_of_getD xs i a d h]

theorem getD_map {α β : Type} (f : α → β) :
    ∀ (l : List α) (j : Nat) (d : α), j < l.length → (l.map f).getD j (f d) = f (l.getD j d)
  | [], j, _, h => absurd h (by simp)
  | _ :: _, 0, _, _ => rfl
  | _ :: xs, j + 1, d, h => getD_map f xs j d (by simpa using h)

theorem getD_append_lt {α : Type} : ∀ (l1 l2 : List α) (i : Nat) (d : α),
    i < l1.length → (l1 ++ l2).getD i d = l1.getD i d
  | [], _, i, _, h => absurd h (by simp)
  | _ :: _, _, 0, _, _ => rfl
  | _ :: xs, l2, i + 1, d, h => getD_append_lt xs l2 i d (by simpa using h)

theorem getD_snoc_self {α : Type} : ∀ (l : List α) (a d : α),
    (l ++ [a]).getD l.length d = a
  | [], _, _ => rfl
  | _ :: xs, a, d => getD_snoc_self xs a d

theorem fieldLookup_nil (c : Coord) : fieldLookup [] c = none := rfl

theorem fieldLookup_eq_none_iff {field : List (Coord × Nat)} {c : Coord} :
    fieldLookup field c = none ↔ ∀ p ∈ field, p.1 ≠ c := by
  unfold fieldLookup
  simp [List.find?_eq_none]

theorem fieldLookup_append_none {f1 f2 : List (Coord × Nat)} {c : Coord}
    (h : fieldLookup (f1 ++ f2) c = none) :
    fieldLookup f1 c = none ∧ fieldLookup f2 c = none := by
  rw [fieldLookup_eq_none_iff] at h ⊢
  rw [fieldLookup_eq_none_iff]
  constructor
  · exact fun p hp => h p (List.mem_append_left _ hp)
  · exact fun p hp => h p (List.mem_append_right _ hp)

theorem fieldLookup_some_of_mem : ∀ {field : List (Coord × Nat)} {c : Coord} {i : Nat},
    (field.map (fun p => p.1)).Nodup → (c, i) ∈ field → fieldLookup field c = some i := by
  intro field
  induction field with
  | nil => intro c i _ h; cases h
  | cons p rest ih =>
    intro c i hnd hm
    rw [List.map_cons, List.nodup_cons] at hnd
    rcases List.mem_cons.mp hm with hm | hm
    · subst hm
      simp [fieldLookup, List.find?]
    · have hne : p.1 ≠ c := by
        intro hpc
        exact hnd.1 (hpc ▸ List.mem_map_of_mem (fun q => q.1) hm)
      have : (p.1 == c) = false := by simpa using hne
      simp only [fieldLookup, List.find?, this]
      exact ih hnd.2 hm

theorem fieldIdxs_mem_of_lookup {b : Battleship} {c : Coord} {i : Nat}
    (h : fieldLookup b.field c = some i) : i ∈ fieldIdxs b := by
  have := mem_of_fieldLookup h
  exact List.mem_map_of_mem (fun p => p.2) this

/-! ## `setFirstDead` and `Ship.fire` structure lemmas -/

theorem setFirstDead_spec : ∀ {ds : List Deck} {row column : Int} {ds' : List Deck},
    setFirstDead ds row column = some ds' →
    ∃ j, j < ds.length ∧ (ds.getD j dfltDeck).row = row ∧
      (ds.getD j dfltDeck).column = column ∧ ds' = ds.set j ⟨row, column, false⟩ := by
  intro ds
  induction ds with
  | nil => intro row column ds' h; cases h
  | cons d rest ih =>
    intro row column ds' h
    unfold setFirstDead at h
    by_cases hc : (d.row == row && d.column == column) = true
    · rw [if_pos hc] at h
      have hrc : d.row = row ∧ d.column = column := by simpa using hc
      refine ⟨0, by simp, by simpa using hrc.1, by simpa using hrc.2, ?_⟩
      have hd : ({ d with is_alive := false } : Deck) = ⟨row, column, false⟩ := by
        cases d
        simp_all
      cases h
      simp [List.set, hd]
    · rw [if_neg hc] at h
      cases hrec : setFirstDead rest row column with
      | none => rw [hrec] at h; cases h
      | some ds0 =>
        rw [hrec] at h
        simp only [Option.map_some'] at h
        obtain ⟨j, hj, hr, hcl, hset⟩ := ih hrec
        refine ⟨j + 1, by simpa using Nat.succ_lt_succ hj, by simpa using hr,
          by simpa using hcl, ?_⟩
        cases h
        rw [hset]
        rfl

theorem setFirstDead_isSome : ∀ {ds : List Deck} {row column : Int},
    (∃ d ∈ ds, d.row = row ∧ d.column = column) → (setFirstDead ds row column).isSome = true := by
  intro ds
  induction ds with
  | nil => rintro row column ⟨d, hd, _⟩; cases hd
  | cons d rest ih =>
    rintro row column ⟨d', hd', hrow, hcol⟩
    unfold setFirstDead
    by_cases hc : (d.row == row && d.column == column) = true
    · rw [if_pos hc]; rfl
    · rw [if_neg hc]
      rcases List.mem_cons.mp hd' with h | h
      · exfalso
        apply hc
        subst h
        simp [hrow, hcol]
      · have := ih ⟨d', h, hrow, hcol⟩
        cases hrec : setFirstDead rest row column with
        | none => rw [hrec] at this; cases this
        | some _ => simp [hrec]

/-! ## Placement invariant -/

theorem ship_init_fresh {s e : Coord} {sh : Ship} (h : Ship.init s e false = Except.ok sh) :
    sh.is_drowned = false ∧ ∀ d ∈ sh.decks, d.is_alive = true := by
  unfold Ship.init at h
  split_ifs at h with h1 h2
  · cases h
    refine ⟨rfl, ?_⟩
    intro d hd
    obtain ⟨x, _, hx⟩ := List.mem_map.mp hd
    rw [← hx]
    rfl
  · cases h
    refine ⟨rfl, ?_⟩
    intro d hd
    obtain ⟨x, _, hx⟩ := List.mem_map.mp hd
    rw [← hx]
    rfl

theorem placeDecks_ok {idx : Nat} : ∀ {ds : List Deck} {field field' : List (Coord × Nat)},
    placeDecks field idx ds = Except.ok field' →
    field' = field ++ ds.map (fun d => ((d.row, d.column), idx)) ∧
    (∀ d ∈ ds, fieldLookup field (d.row, d.column) = none) ∧
    (ds.map (fun d => (d.row, d.column))).Nodup := by
  intro ds
  induction ds with
  | nil =>
    intro field field' h
    cases h
    simp
  | cons d rest ih =>
    intro field field' h
    simp only [placeDecks] at h
    by_cases hc : (fieldLookup field (d.row, d.column)).isSome = true
    · rw [if_pos hc] at h
      cases h
    · rw [if_neg hc] at h
      have hnone : fieldLookup field (d.row, d.column) = none :=
        Option.not_isSome_iff_eq_none.mp hc
      obtain ⟨h1, h2, h3⟩ := ih h
      have htailfresh : ∀ d' ∈ rest,
          fieldLookup (field ++ [((d.row, d.column), idx)]) (d'.row, d'.column) = none := h2
      refine ⟨?_, ?_, ?_⟩
      · rw [h1, List.append_assoc]
        rfl
      · intro d' hd'
        rcases List.mem_cons.mp hd' with hd' | hd'
        · subst hd'
          exact hnone
        · exact (fieldLookup_append_none (htailfresh d' hd')).1
      · rw [List.map_cons, List.nodup_cons]
        refine ⟨?_, h3⟩
        intro hmem
        obtain ⟨d', hd', hco⟩ := List.mem_map.mp hmem
        have := (fieldLookup_append_none (htailfresh d' hd')).2
        rw [fieldLookup_eq_none_iff] at this
        exact this ((d.row, d.column), idx) (List.mem_singleton_self _) (by rw [hco])

theorem placeInv_nil : PlaceInv [] [] := by
  refine ⟨by simp, ?_, ?_, ?_, ?_⟩
  · intro p hp
    cases hp
  · intro i hi
    exact absurd hi (by simp)
  · intro i
    simp [dfltShip, Ship.coords]
  · intro i
    simp [dfltShip]

theorem placeAll_inv : ∀ (specs : List (Coord × Coord)) (acc : List Ship)
    (field : List (Coord × Nat)) {ships : List Ship} {field' : List (Coord × Nat)},
    placeAll acc field specs = Except.ok (ships, field') → PlaceInv acc field →
    PlaceInv ships field' := by
  intro specs
  induction specs with
  | nil =>
    intro acc field ships field' h hP
    simp only [placeAll] at h
    have hpair : acc = ships ∧ field = field' := by
      simpa using h
    rw [← hpair.1, ← hpair.2]
    exact hP
  | cons se rest ih =>
    intro acc field ships field' h hP
    obtain ⟨s, e⟩ := se
    simp only [placeAll] at h
    obtain ⟨ship, hs, h⟩ := except_bind_ok h
    obtain ⟨field1, hd, h⟩ := except_bind_ok h
    obtain ⟨hf1, hfresh, hnodup⟩ := placeDecks_ok hd
    have hshipfresh := ship_init_fresh hs
    have hlen : (acc ++ [ship]).length = acc.length + 1 := by simp
    have hnewkeys : (ship.decks.map (fun d => ((d.row, d.column), acc.length))).map
        (fun p => p.1) = ship.decks.map (fun d => (d.row, d.column)) := by
      simp [List.map_map, Function.comp]
    refine ih _ _ h ?_
    refine ⟨?_, ?_, ?_, ?_, ?_⟩
    · rw [hf1, List.map_append]
      refine List.Nodup.append hP.keys_nodup (by rw [hnewkeys]; exact hnodup) ?_
      intro a ha hb
      rw [hnewkeys] at hb
      obtain ⟨d', hd', hco⟩ := List.mem_map.mp hb
      have hnone := hfresh d' hd'
      rw [fieldLookup_eq_none_iff] at hnone
      obtain ⟨p, hp, hpa⟩ := List.mem_map.mp ha
      exact hnone p hp (by rw [hpa, hco])
    · intro p hp
      rw [hf1] at hp
      rcases List.mem_append.mp hp with hp | hp
      · have hold := hP.entries p hp
        refine ⟨by omega, ?_⟩
        rw [getD_append_lt _ _ _ _ hold.1]
        exact hold.2
      · obtain ⟨d', hd', hpd⟩ := List.mem_map.mp hp
        rw [← hpd]
        refine ⟨by simp, ?_⟩
        show (d'.row, d'.column) ∈ ((acc ++ [ship]).getD acc.length dfltShip).coords
        rw [getD_snoc_self]
        exact List.mem_map_of_mem _ hd'
    · intro i hi c hc
      rw [hf1]
      by_cases hlt : i < acc.length
      · rw [getD_append_lt _ _ _ _ hlt] at hc
        exact List.mem_append_left _ (hP.total i hlt c hc)
      · have hieq : i = acc.length := by omega
        subst hieq
        rw [getD_snoc_self] at hc
        obtain ⟨d', hd', hco⟩ := List.mem_map.mp hc
        refine List.mem_append_right _ ?_
        exact List.mem_map.mpr ⟨d', hd', by rw [hco]⟩
    · intro i
      by_cases hlt : i < acc.length
      · rw [getD_append_lt _ _ _ _ hlt]
        exact hP.nodups i
      · by_cases hieq : i = acc.length
        · subst hieq
          rw [getD_snoc_self]
          exact hnodup
        · rw [List.getD_eq_default _ _ (by rw [hlen]; omega)]
          simp [dfltShip, Ship.coords]
    · intro i
      by_cases hlt : i < acc.length
      · rw [getD_append_lt _ _ _ _ hlt]
        exact hP.fresh i
      · by_cases hieq : i = acc.length
        · subst hieq
          rw [getD_snoc_self]
          exact hshipfresh
        · rw [List.getD_eq_default _ _ (by rw [hlen]; omega)]
          simp [dfltShip]

/-- Construction establishes the placement invariant and the reachable-state
invariant, with every deck alive and every drowned flag clear. -/
theorem invB_of_init {specs : List (Coord × Coord)} {b : Battleship}
    (h : Battleship.init specs = Except.ok b) :
    InvB b ∧ ∀ i, (shipAt b i).is_drowned = false ∧
      ∀ d ∈ (shipAt b i).decks, d.is_alive = true := by
  have hsplit := init_ok_split h
  have hP : PlaceInv b.ships b.field := placeAll_inv specs [] [] hsplit.1 placeInv_nil
  have hlt : ∀ i, i ∈ fieldIdxs b → i < b.ships.length := by
    intro i hi
    obtain ⟨p, hp, hpi⟩ := List.mem_map.mp hi
    have := (hP.entries p hp).1
    omega
  refine ⟨⟨hP.keys_nodup, ?_, ?_, ?_, ?_, ?_⟩, hP.fresh⟩
  · intro c i hl
    exact (hP.entries (c, i) (mem_of_fieldLookup hl)).1
  · intro c i hl
    exact (hP.entries (c, i) (mem_of_fieldLookup hl)).2
  · intro i hi c hc
    exact fieldLookup_some_of_mem hP.keys_nodup (hP.total i (hlt i hi) c hc)
  · intro i
    exact hP.nodups i
  · intro i hi
    show (b.ships.getD i dfltShip).is_drowned = true ↔
      ∀ d ∈ (b.ships.getD i dfltShip).decks, d.is_alive = false
    rw [(hP.fresh i).1]
    simp only [Bool.false_eq_true, false_iff]
    intro hall
    obtain ⟨p, hp, hpi⟩ := List.mem_map.mp hi
    have hc := (hP.entries p hp).2
    rw [hpi] at hc
    obtain ⟨d0, hd0, _⟩ := List.mem_map.mp
      (show p.1 ∈ (b.ships.getD i dfltShip).decks.map (fun d => (d.row, d.column)) from hc)
    have halive := (hP.fresh i).2 d0 hd0
    rw [hall d0 hd0] at halive
    cases halive

/-! ## Fire-step preservation -/

theorem map_set_coord_self : ∀ (ds : List Deck) (j : Nat) (row column : Int),
    j < ds.length → (ds.getD j dfltDeck).row = row → (ds.getD j dfltDeck).column = column →
    (ds.set j ⟨row, column, false⟩).map (fun d => (d.row, d.column)) =
      ds.map (fun d => (d.row, d.column))
  | [], j, _, _, h, _, _ => absurd h (by simp)
  | d :: ds, 0, row, column, _, hr, hc => by
    simp only [List.getD_cons_zero] at hr hc
    simp [List.set, hr, hc]
  | d :: ds, j + 1, row, column, h, hr, hc => by
    simp only [List.getD_cons_succ] at hr hc
    simp only [List.set, List.map_cons]
    rw [map_set_coord_self ds j row column (by simpa using h) hr hc]

theorem fire_facts_aux {b : Battleship} (hI : InvB b) {loc : Coord} {i j : Nat}
    {ds' : List Deck} {flag : Bool} {b' : Battleship}
    (hl : fieldLookup b.field loc = some i)
    (hj : j < (shipAt b i).decks.length)
    (hjr : ((shipAt b i).decks.getD j dfltDeck).row = loc.1)
    (hjc : ((shipAt b i).decks.getD j dfltDeck).column = loc.2)
    (hds' : ds' = (shipAt b i).decks.set j ⟨loc.1, loc.2, false⟩)
    (hflag : (flag = true ∧ ds'.all (fun d => !d.is_alive) = true) ∨
      (flag = (shipAt b i).is_drowned ∧ ds'.all (fun d => !d.is_alive) = false))
    (hb' : b' = ⟨b.ships.set i ⟨flag, ds'⟩, b.field⟩) :
    b'.field = b.field ∧
    b'.ships.length = b.ships.length ∧
    (∀ i'', (shipAt b' i'').coords = (shipAt b i'').coords) ∧
    (∀ i'' k, ((shipAt b i'').decks.getD k dfltDeck).is_alive = false →
      ((shipAt b' i'').decks.getD k dfltDeck).is_alive = false) ∧
    (∀ i'', (shipAt b i'').is_drowned = true → (shipAt b' i'').is_drowned = true) ∧
    InvB b' := by
  subst hb'
  have hilt : i < b.ships.length := hI.lookup_lt loc i hl
  have hAt_i : shipAt ⟨b.ships.set i ⟨flag, ds'⟩, b.field⟩ i = ⟨flag, ds'⟩ := by
    unfold shipAt
    exact getD_set_self _ _ _ _ hilt
  have hAt_ne : ∀ i'', i'' ≠ i →
      shipAt ⟨b.ships.set i ⟨flag, ds'⟩, b.field⟩ i'' = shipAt b i'' := by
    intro i'' hne
    unfold shipAt
    exact getD_set_ne _ _ _ _ _ (fun hh => hne hh.symm)
  have hcoords : ∀ i'',
      (shipAt ⟨b.ships.set i ⟨flag, ds'⟩, b.field⟩ i'').coords = (shipAt b i'').coords := by
    intro i''
    by_cases hne : i'' = i
    · subst hne
      rw [hAt_i]
      show ds'.map _ = _
      rw [hds']
      exact map_set_coord_self _ _ _ _ hj hjr hjc
    · rw [hAt_ne i'' hne]
  have hdead : ∀ i'' k, ((shipAt b i'').decks.getD k dfltDeck).is_alive = false →
      ((shipAt ⟨b.ships.set i ⟨flag, ds'⟩, b.field⟩ i'').decks.getD k dfltDeck).is_alive
        = false := by
    intro i'' k hk
    by_cases hne : i'' = i
    · subst hne
      rw [hAt_i]
      show (ds'.getD k dfltDeck).is_alive = false
      rw [hds']
      by_cases hkj : k = j
      · subst hkj
        rw [getD_set_self _ _ _ _ hj]
      · rw [getD_set_ne _ _ _ _ _ (fun hh => hkj hh.symm)]
        exact hk
    · rw [hAt_ne i'' hne]
      exact hk
  have hdr : ∀ i'', (shipAt b i'').is_drowned = true →
      (shipAt ⟨b.ships.set i ⟨flag, ds'⟩, b.field⟩ i'').is_drowned = true := by
    intro i'' hold
    by_cases hne : i'' = i
    · subst hne
      rw [hAt_i]
      show flag = true
      rcases hflag with ⟨hfl, _⟩ | ⟨hfl, _⟩
      · exact hfl
      · rw [hfl]
        exact hold
    · rw [hAt_ne i'' hne]
      exact hold
  refine ⟨rfl, by simp, hcoords, hdead, hdr, ?_⟩
  refine ⟨hI.keys_nodup, ?_, ?_, ?_, ?_, ?_⟩
  · intro c'' i'' hl''
    simp only [List.length_set]
    exact hI.lookup_lt c'' i'' hl''
  · intro c'' i'' hl''
    rw [hcoords i'']
    exact hI.lookup_deck c'' i'' hl''
  · intro i'' hi'' c'' hc''
    unfold shipCoords at hc''
    rw [hcoords i''] at hc''
    exact hI.coords_mem i'' hi'' c'' hc''
  · intro i''
    unfold shipCoords
    rw [hcoords i'']
    exact hI.coords_nodup i''
  · intro i'' hi''
    by_cases hne : i'' = i
    · subst hne
      rw [hAt_i]
      show flag = true ↔ ∀ d ∈ ds', d.is_alive = false
      rcases hflag with ⟨hfl, hall⟩ | ⟨hfl, hall⟩
      · subst hfl
        refine ⟨fun _ d hd => ?_, fun _ => rfl⟩
        have := List.all_eq_true.mp hall d hd
        simpa using this
      · have hold : (shipAt b i'').is_drowned ≠ true := by
          intro htrue
          have hdeadall := (hI.drowned_iff i'' (fieldIdxs_mem_of_lookup hl)).mp htrue
          have hcontra : ds'.all (fun d => !d.is_alive) = true := by
            rw [List.all_eq_true]
            intro d hd
            rw [hds'] at hd
            rcases List.mem_or_eq_of_mem_set hd with hm | he
            · simp [hdeadall d hm]
            · simp [he]
          rw [hcontra] at hall
          cases hall
        have hfl2 : (shipAt b i'').is_drowned = false := by
          cases hdd : (shipAt b i'').is_drowned
          · rfl
          · exact absurd hdd hold
        rw [hfl, hfl2]
        simp only [Bool.false_eq_true, false_iff]
        intro hallP
        have hcontra : ds'.all (fun d => !d.is_alive) = true := by
          rw [List.all_eq_true]
          intro d hd
          simp [hallP d hd]
        rw [hcontra] at hall
        cases hall
    · rw [hAt_ne i'' hne]
      exact hI.drowned_iff i'' hi''

/-- Every fire call on an invariant-satisfying board keeps the field map,
the arena size and every ship's deck coordinates unchanged, only kills
decks and only raises drowned flags, and preserves the invariant. -/
theorem fire_facts {b : Battleship} (hI : InvB b) {loc : Coord} {b' : Battleship} {r : String}
    (h : b.fire loc = some (b', r)) :
    b'.field = b.field ∧
    b'.ships.length = b.ships.length ∧
    (∀ i, (shipAt b' i).coords = (shipAt b i).coords) ∧
    (∀ i k, ((shipAt b i).decks.getD k dfltDeck).is_alive = false →
      ((shipAt b' i).decks.getD k dfltDeck).is_alive = false) ∧
    (∀ i, (shipAt b i).is_drowned = true → (shipAt b' i).is_drowned = true) ∧
    InvB b' := by
  unfold Battleship.fire at h
  split at h
  next hl =>
    simp only [Option.some.injEq, Prod.mk.injEq] at h
    obtain ⟨h1, _⟩ := h
    subst h1
    exact ⟨rfl, rfl, fun _ => rfl, fun _ _ hk => hk, fun _ hd => hd, hI⟩
  next i hl =>
    split at h
    next hf => cases h
    next ship' sunk hf =>
      simp only [Option.some.injEq, Prod.mk.injEq] at h
      obtain ⟨hb', _⟩ := h
      unfold Ship.fire at hf
      split at hf
      next hsd => cases hf
      next ds' hsd =>
        obtain ⟨j, hj, hjr, hjc, hds'⟩ := setFirstDead_spec hsd
        by_cases hall : ds'.all (fun d => !d.is_alive) = true
        · rw [if_pos hall] at hf
          simp only [Option.some.injEq, Prod.mk.injEq] at hf
          obtain ⟨hship, _⟩ := hf
          exact fire_facts_aux hI hl hj hjr hjc hds' (Or.inl ⟨rfl, hall⟩)
            (by rw [← hb', ← hship])
        · rw [if_neg hall] at hf
          simp only [Option.some.injEq, Prod.mk.injEq] at hf
          obtain ⟨hship, _⟩ := hf
          exact fire_facts_aux hI hl hj hjr hjc hds'
            (Or.inr ⟨rfl, by simpa using hall⟩) (by rw [← hb', ← hship])

theorem reachable_inv : ∀ {b : Battleship}, Reachable b → InvB b := by
  intro b h
  induction h with
  | init specs b h => exact (invB_of_init h).1
  | step b loc b' r hb h ih => exact (fire_facts ih h).2.2.2.2.2

/-- C8: on every reachable board, any coordinate that resolves to a ship in
the field map is the coordinate of one of that ship's decks, and `fire` is
total — it never raises, whatever was fired before. -/
theorem fire_total_on_reachable (b : Battleship) (hb : Reachable b) (loc : Coord) :
    (∀ i, fieldLookup b.field loc = some i →
      ∃ d ∈ (shipAt b i).decks, d.row = loc.1 ∧ d.column = loc.2) ∧
    (b.fire loc).isSome = true := by
  have hI := reachable_inv hb
  have hdeck : ∀ i, fieldLookup b.field loc = some i →
      ∃ d ∈ (shipAt b i).decks, d.row = loc.1 ∧ d.column = loc.2 := by
    intro i hl
    have hc := hI.lookup_deck loc i hl
    unfold Ship.coords at hc
    obtain ⟨d, hd, hco⟩ := List.mem_map.mp hc
    refine ⟨d, hd, ?_, ?_⟩ <;> rw [← hco]
  refine ⟨hdeck, ?_⟩
  unfold Battleship.fire
  split
  next hl => rfl
  next i hl =>
    obtain ⟨d, hd, hr, hc⟩ := hdeck i hl
    have hs := setFirstDead_isSome ⟨d, hd, hr, hc⟩
    split
    next hf =>
      unfold Ship.fire at hf
      split at hf
      next hsd => rw [hsd] at hs; cases hs
      next ds' hsd => split at hf <;> cases hf
    next ship' sunk hf => rfl

/-- Witness for `fire_total_on_reachable`: the freshly built demo board is
reachable and firing `(0, 0)` raises nothing. -/
theorem fire_total_on_reachable_witness :
    (∀ i, fieldLookup demoBoard.field ((0 : Int), (0 : Int)) = some i →
      ∃ d ∈ (shipAt demoBoard i).decks, d.row = (0 : Int) ∧ d.column = (0 : Int)) ∧
    (demoBoard.fire ((0 : Int), (0 : Int))).isSome = true :=
  fire_total_on_reachable demoBoard (Reachable.init demoSpecs demoBoard rfl)
    ((0 : Int), (0 : Int))

/-- C9: on every reachable board, a referenced ship's drowned flag is up
exactly when all of its decks are dead, and each fire step is monotone:
dead decks stay dead and drowned flags stay up. -/
theorem sunk_iff_all_decks_dead (b : Battleship) (hb : Reachable b) :
    (∀ i, i ∈ fieldIdxs b →
      ((shipAt b i).is_drowned = true ↔ ∀ d ∈ (shipAt b i).decks, d.is_alive = false)) ∧
    (∀ loc b' r, b.fire loc = some (b', r) →
      (∀ i k, ((shipAt b i).decks.getD k dfltDeck).is_alive = false →
        ((shipAt b' i).decks.getD k dfltDeck).is_alive = false) ∧
      (∀ i, (shipAt b i).is_drowned = true → (shipAt b' i).is_drowned = true)) := by
  have hI := reachable_inv hb
  refine ⟨hI.drowned_iff, ?_⟩
  intro loc b' r h
  have hf := fire_facts hI h
  exact ⟨hf.2.2.2.1, hf.2.2.2.2.1⟩

/-- Witness for `sunk_iff_all_decks_dead`, instantiated on the demo board. -/
theorem sunk_iff_all_decks_dead_witness :
    (∀ i, i ∈ fieldIdxs demoBoard →
      ((shipAt demoBoard i).is_drowned = true ↔
        ∀ d ∈ (shipAt demoBoard i).decks, d.is_alive = false)) ∧
    (∀ loc b' r, demoBoard.fire loc = some (b', r) →
      (∀ i k, ((shipAt demoBoard i).decks.getD k dfltDeck).is_alive = false →
        ((shipAt b' i).decks.getD k dfltDeck).is_alive = false) ∧
      (∀ i, (shipAt demoBoard i).is_drowned = true → (shipAt b' i).is_drowned = true)) :=
  sunk_iff_all_decks_dead demoBoard (Reachable.init demoSpecs demoBoard rfl)

/-! ## Firing a whole ship, deck by deck -/

theorem killIf_snoc_ne (fs : List Coord) (d : Deck) (c : Coord)
    (h : (d.row, d.column) ≠ c) : killIf (fs ++ [c]) d = killIf fs d := by
  unfold killIf
  by_cases hin : (d.row, d.column) ∈ fs
  · rw [if_pos (List.mem_append_left _ hin), if_pos hin]
  · rw [if_neg ?_, if_neg hin]
    intro hmem
    rcases List.mem_append.mp hmem with hmem | hmem
    · exact hin hmem
    · exact h (List.mem_singleton.mp hmem)

theorem setFirstDead_killIf : ∀ (ds : List Deck) (fs : List Coord) (c : Coord),
    (ds.map (fun d => (d.row, d.column))).Nodup → c ∈ ds.map (fun d => (d.row, d.column)) →
    setFirstDead (ds.map (killIf fs)) c.1 c.2 = some (ds.map (killIf (fs ++ [c]))) := by
  intro ds
  induction ds with
  | nil =>
    intro fs c _ hc
    exact absurd hc (by simp)
  | cons d rest ih =>
    intro fs c hnd hc
    rw [List.map_cons, List.nodup_cons] at hnd
    have hrowcol : (killIf fs d).row = d.row ∧ (killIf fs d).column = d.column := by
      unfold killIf
      split <;> exact ⟨rfl, rfl⟩
    by_cases hdc : (d.row, d.column) = c
    · have hcond : ((killIf fs d).row == c.1 && (killIf fs d).column == c.2) = true := by
        rw [hrowcol.1, hrowcol.2, ← hdc]
        simp
      rw [List.map_cons]
      unfold setFirstDead
      rw [if_pos hcond, List.map_cons]
      have hhead : ({ killIf fs d with is_alive := false } : Deck) = killIf (fs ++ [c]) d := by
        have h1 : killIf (fs ++ [c]) d = ⟨d.row, d.column, false⟩ := by
          unfold killIf
          rw [if_pos (by rw [hdc]; exact List.mem_append_right _ (List.mem_singleton_self c))]
        have h2 : ({ killIf fs d with is_alive := false } : Deck) = ⟨d.row, d.column, false⟩ := by
          unfold killIf
          split <;> rfl
        rw [h1, h2]
      have htail : rest.map (killIf fs) = rest.map (killIf (fs ++ [c])) := by
        apply List.map_congr_left
        intro d' hd'
        have hne : (d'.row, d'.column) ≠ c := by
          intro he
          exact hnd.1 (by rw [hdc, ← he]; exact List.mem_map_of_mem _ hd')
        exact (killIf_snoc_ne fs d' c hne).symm
      rw [hhead, htail]
    · have hcond : ((killIf fs d).row == c.1 && (killIf fs d).column == c.2) = false := by
        rw [hrowcol.1, hrowcol.2]
        have : ¬(d.row = c.1 ∧ d.column = c.2) := by
          intro ⟨h1, h2⟩
          exact hdc (by rw [h1, h2])
        simp only [Bool.and_eq_false_iff, beq_eq_false_iff_ne]
        by_cases h1 : d.row = c.1
        · exact Or.inr (fun h2 => this ⟨h1, h2⟩)
        · exact Or.inl h1
      have hcrest : c ∈ rest.map (fun d => (d.row, d.column)) := by
        rcases List.mem_cons.mp hc with he | hm
        · exact absurd he.symm hdc
        · exact hm
      rw [List.map_cons]
      unfold setFirstDead
      rw [if_neg (by rw [hcond]; exact Bool.false_ne_true), ih fs c hnd.2 hcrest,
        List.map_cons, Option.map_some']
      rw [killIf_snoc_ne fs d c hdc]

theorem killIf_all_dead_iff (ds : List Deck) (fs : List Coord)
    (hAlive : ∀ d ∈ ds, d.is_alive = true) :
    ((ds.map (killIf fs)).all (fun d => !d.is_alive) = true) ↔
      ∀ c ∈ ds.map (fun d => (d.row, d.column)), c ∈ fs := by
  rw [List.all_eq_true]
  constructor
  · intro h c hc
    obtain ⟨d, hd, hco⟩ := List.mem_map.mp hc
    have hdead := h (killIf fs d) (List.mem_map_of_mem _ hd)
    by_contra hnot
    rw [killIf, if_neg (by rw [hco]; exact hnot)] at hdead
    rw [hAlive d hd] at hdead
    simp at hdead
  · intro h x hx
    obtain ⟨d, hd, hdx⟩ := List.mem_map.mp hx
    have hcd := h (d.row, d.column) (List.mem_map_of_mem _ hd)
    rw [← hdx, killIf, if_pos hcd]
    rfl

theorem killIf_all_mono (ds : List Deck) (fs fs' : List Coord)
    (hsub : ∀ c ∈ fs, c ∈ fs')
    (h : (ds.map (killIf fs)).all (fun d => !d.is_alive) = true) :
    (ds.map (killIf fs')).all (fun d => !d.is_alive) = true := by
  rw [List.all_eq_true] at h ⊢
  intro x hx
  obtain ⟨d, hd, hdx⟩ := List.mem_map.mp hx
  have h1 := h (killIf fs d) (List.mem_map_of_mem _ hd)
  rw [← hdx]
  unfold killIf at h1 ⊢
  by_cases hin : (d.row, d.column) ∈ fs
  · rw [if_pos (hsub _ hin)]
    rfl
  · rw [if_neg hin] at h1
    by_cases hin' : (d.row, d.column) ∈ fs'
    · rw [if_pos hin']
      rfl
    · rw [if_neg hin']
      exact h1

theorem ship_fire_fired {s0 : Ship} {fs : List Coord} {c : Coord}
    (hsfd : setFirstDead (s0.decks.map (killIf fs)) c.1 c.2 =
      some (s0.decks.map (killIf (fs ++ [c])))) :
    (firedShip s0 fs).fire c.1 c.2 =
      some (firedShip s0 (fs ++ [c]),
        (s0.decks.map (killIf (fs ++ [c]))).all (fun d => !d.is_alive)) := by
  unfold Ship.fire firedShip
  rw [hsfd]
  show (if (s0.decks.map (killIf (fs ++ [c]))).all (fun d => !d.is_alive)
      then some ((⟨true, s0.decks.map (killIf (fs ++ [c]))⟩ : Ship), true)
      else some ((⟨(s0.decks.map (killIf fs)).all (fun d => !d.is_alive),
        s0.decks.map (killIf (fs ++ [c]))⟩ : Ship), false)) = _
  by_cases hall : (s0.decks.map (killIf (fs ++ [c]))).all (fun d => !d.is_alive) = true
  · rw [if_pos hall, hall]
  · have hall' : (s0.decks.map (killIf (fs ++ [c]))).all (fun d => !d.is_alive) = false := by
      simpa using hall
    rw [if_neg hall, hall']
    have hmono : (s0.decks.map (killIf fs)).all (fun d => !d.is_alive) = false := by
      cases hfs : (s0.decks.map (killIf fs)).all (fun d => !d.is_alive)
      · rfl
      · have := killIf_all_mono s0.decks fs (fs ++ [c])
          (fun x hx => List.mem_append_left _ hx) hfs
        rw [this] at hall'
        cases hall'
    rw [hmono]

theorem fired_step {b0 : Battleship} {i : Nat}
    (hi : i < b0.ships.length)
    (hLk : ∀ c ∈ shipCoords b0 i, fieldLookup b0.field c = some i)
    (hND : (shipCoords b0 i).Nodup)
    (fs : List Coord) {c : Coord} (hc : c ∈ shipCoords b0 i) :
    (firedBoard b0 i fs).fire c =
      some (firedBoard b0 i (fs ++ [c]),
        if ((shipAt b0 i).decks.map (killIf (fs ++ [c]))).all (fun d => !d.is_alive)
        then "Sunk!" else "Hit!") := by
  have hND' : ((shipAt b0 i).decks.map (fun d => (d.row, d.column))).Nodup := hND
  have hc' : c ∈ (shipAt b0 i).decks.map (fun d => (d.row, d.column)) := hc
  have hsfd := setFirstDead_killIf (shipAt b0 i).decks fs c hND' hc'
  have hAt : shipAt (firedBoard b0 i fs) i = firedShip (shipAt b0 i) fs := by
    unfold firedBoard shipAt
    exact getD_set_self _ _ _ _ hi
  have hl : fieldLookup (firedBoard b0 i fs).field c = some i := hLk c hc
  unfold Battleship.fire
  split
  next hl0 =>
    rw [hl] at hl0
    cases hl0
  next i0 hl0 =>
    rw [hl] at hl0
    have hi0 : i = i0 := Option.some.inj hl0
    subst hi0
    rw [hAt, ship_fire_fired hsfd]
    show some ((⟨(firedBoard b0 i fs).ships.set i (firedShip (shipAt b0 i) (fs ++ [c])),
        (firedBoard b0 i fs).field⟩ : Battleship),
      if ((shipAt b0 i).decks.map (killIf (fs ++ [c]))).all (fun d => !d.is_alive)
      then "Sunk!" else "Hit!") = _
    simp only [firedBoard]
    rw [List.set_set]

theorem fireSeq_cons_of_fire {b : Battleship} {c : Coord} {b2 : Battleship} {r : String}
    (hf : b.fire c = some (b2, r)) (rest : List Coord) :
    fireSeq b (c :: rest) = (fireSeq b2 rest).map (fun pr => (pr.1, r :: pr.2)) := by
  simp only [fireSeq]
  rw [hf]

theorem fired_seq {b0 : Battleship} {i : Nat}
    (hi : i < b0.ships.length)
    (hLk : ∀ c ∈ shipCoords b0 i, fieldLookup b0.field c = some i)
    (hND : (shipCoords b0 i).Nodup) :
    ∀ (rest fs : List Coord), (∀ c ∈ rest, c ∈ shipCoords b0 i) →
      fireSeq (firedBoard b0 i fs) rest =
        some (firedBoard b0 i (fs ++ rest), expResults (shipAt b0 i) fs rest) := by
  intro rest
  induction rest with
  | nil =>
    intro fs _
    simp [fireSeq, expResults]
  | cons c rest ih =>
    intro fs hmem
    rw [fireSeq_cons_of_fire (fired_step hi hLk hND fs (hmem c (List.mem_cons_self c rest)))
      rest, ih (fs ++ [c]) (fun x hx => hmem x (List.mem_cons_of_mem c hx)),
      Option.map_some']
    rw [show (fs ++ [c]) ++ rest = fs ++ (c :: rest) by simp]
    simp only [expResults]

theorem expResults_perm {s0 : Ship} (hAlive : ∀ d ∈ s0.decks, d.is_alive = true) :
    ∀ (rest fs : List Coord), (fs ++ rest).Perm s0.coords → (fs ++ rest).Nodup →
      rest ≠ [] →
      expResults s0 fs rest = List.replicate (rest.length - 1) "Hit!" ++ ["Sunk!"] := by
  intro rest
  induction rest with
  | nil =>
    intro fs _ _ hne
    exact absurd rfl hne
  | cons c rest ih =>
    intro fs hperm hnd hne
    cases rest with
    | nil =>
      have hcond := (killIf_all_dead_iff s0.decks (fs ++ [c]) hAlive).mpr
        (fun x hx => hperm.symm.subset hx)
      unfold expResults
      rw [if_pos hcond]
      rfl
    | cons c2 rest2 =>
      have hc2 : c2 ∈ s0.coords :=
        hperm.subset (List.mem_append_right _ (List.mem_cons_of_mem c (List.mem_cons_self _ _)))
      have hnotin : c2 ∉ fs ++ [c] := by
        intro hmem
        rw [List.nodup_append] at hnd
        rcases List.mem_append.mp hmem with hf | hc1
        · exact hnd.2.2 hf (List.mem_cons_of_mem c (List.mem_cons_self _ _))
        · have hcc : c2 = c := List.mem_singleton.mp hc1
          have := List.nodup_cons.mp hnd.2.1
          exact this.1 (by rw [← hcc]; exact List.mem_cons_self _ _)
      have hcond : ((s0.decks.map (killIf (fs ++ [c]))).all (fun d => !d.is_alive)) = false := by
        cases hcv : (s0.decks.map (killIf (fs ++ [c]))).all (fun d => !d.is_alive)
        · rfl
        · have hsub := (killIf_all_dead_iff s0.decks (fs ++ [c]) hAlive).mp hcv
          exact absurd (hsub c2 hc2) hnotin
      unfold expResults
      rw [if_neg (by rw [hcond]; exact Bool.false_ne_true)]
      rw [ih (fs ++ [c]) (by rw [List.append_assoc]; simpa using hperm)
        (by rw [List.append_assoc]; simpa using hnd) (by simp)]
      simp [List.replicate_succ]

theorem firedBoard_nil {b0 : Battleship} {i : Nat}
    (hFlag : (shipAt b0 i).is_drowned = false)
    (hNE : (shipAt b0 i).decks ≠ [])
    (hAlive : ∀ d ∈ (shipAt b0 i).decks, d.is_alive = true) :
    firedBoard b0 i [] = b0 := by
  have hmap : (shipAt b0 i).decks.map (killIf []) = (shipAt b0 i).decks := by
    have hpt : ∀ d ∈ (shipAt b0 i).decks, killIf [] d = d := by
      intro d _
      unfold killIf
      rw [if_neg (by simp)]
    rw [List.map_congr_left hpt, List.map_id']
  have hships : firedShip (shipAt b0 i) [] = shipAt b0 i := by
    unfold firedShip
    have hflag2 : ((shipAt b0 i).decks.map (killIf [])).all (fun d => !d.is_alive) = false := by
      rw [hmap]
      cases hdk : (shipAt b0 i).decks with
      | nil => exact absurd hdk hNE
      | cons d0 rest =>
        have hd0 : d0.is_alive = true := hAlive d0 (by rw [hdk]; exact List.mem_cons_self _ _)
        simp [hd0]
    rw [hflag2, hmap, ← hFlag]
  unfold firedBoard
  rw [hships]
  rw [set_self_of_getD b0.ships i (shipAt b0 i) dfltShip rfl]

/-- C1: on a freshly constructed board, firing once at each deck coordinate
of one of its ships, in any order, returns `Hit!` for every deck but the
last fired and `Sunk!` for exactly the last; any further shot at a deck of
the sunk ship again returns `Sunk!` without raising. -/
theorem fire_whole_ship_in_any_order (specs : List (Coord × Coord)) (b : Battleship)
    (hb : Battleship.init specs = Except.ok b) (i : Nat) (hi : i ∈ fieldIdxs b)
    (p : List Coord) (hp : p.Perm (shipCoords b i)) :
    ∃ b', fireSeq b p = some (b', List.replicate (p.length - 1) "Hit!" ++ ["Sunk!"]) ∧
      ∀ c ∈ shipCoords b i, ∃ b'', b'.fire c = some (b'', "Sunk!") := by
  obtain ⟨hI, hfresh⟩ := invB_of_init hb
  obtain ⟨pr, hpr, hpi⟩ := List.mem_map.mp hi
  have hlk : fieldLookup b.field pr.1 = some pr.2 :=
    fieldLookup_some_of_mem hI.keys_nodup hpr
  rw [hpi] at hlk
  have hilt : i < b.ships.length := hI.lookup_lt pr.1 i hlk
  have hLk : ∀ c ∈ shipCoords b i, fieldLookup b.field c = some i := hI.coords_mem i hi
  have hND : (shipCoords b i).Nodup := hI.coords_nodup i
  have hNE : shipCoords b i ≠ [] := by
    intro hnil
    have hcmem := hI.lookup_deck pr.1 i hlk
    rw [show (shipAt b i).coords = shipCoords b i from rfl, hnil] at hcmem
    cases hcmem
  have hDeckNE : (shipAt b i).decks ≠ [] := by
    intro hd
    apply hNE
    unfold shipCoords Ship.coords
    rw [hd]
    rfl
  have hAlive := (hfresh i).2
  have hFlag := (hfresh i).1
  have hnil := firedBoard_nil hFlag hDeckNE hAlive
  have hmem : ∀ c ∈ p, c ∈ shipCoords b i := fun c hc => hp.subset hc
  have hseq := fired_seq hilt hLk hND p [] hmem
  rw [hnil] at hseq
  have hpnd : ([] ++ p : List Coord).Nodup := by
    simpa using hp.nodup_iff.mpr hND
  have hpne : p ≠ [] := by
    intro hp0
    apply hNE
    rw [hp0] at hp
    exact hp.symm.eq_nil
  have hres := expResults_perm hAlive p [] (by simpa using hp) hpnd hpne
  refine ⟨firedBoard b i ([] ++ p), ?_, ?_⟩
  · rw [hseq, hres]
  · intro c hc
    refine ⟨firedBoard b i (([] ++ p) ++ [c]), ?_⟩
    have hstep := fired_step hilt hLk hND ([] ++ p) hc
    have hcond := (killIf_all_dead_iff (shipAt b i).decks (([] ++ p) ++ [c]) hAlive).mpr
      (fun x hx => List.mem_append_left _ (hp.symm.subset hx))
    rw [hstep, if_pos hcond]

/-- Witness for `fire_whole_ship_in_any_order`: firing the demo board's
4-deck ship at `(0,1), (0,0), (0,3), (0,2)` yields three hits then the
sinking shot. -/
theorem fire_whole_ship_in_any_order_witness :
    ∃ b', fireSeq demoBoard [((0 : Int), (1 : Int)), (0, 0), (0, 3), (0, 2)] =
        some (b', List.replicate
          (([((0 : Int), (1 : Int)), (0, 0), (0, 3), (0, 2)] : List Coord).length - 1)
          "Hit!" ++ ["Sunk!"]) ∧
      ∀ c ∈ shipCoords demoBoard 0, ∃ b'', b'.fire c = some (b'', "Sunk!") :=
  fire_whole_ship_in_any_order demoSpecs demoBoard rfl 0 (by decide)
    [((0 : Int), (1 : Int)), (0, 0), (0, 3), (0, 2)] (by decide)

end Battleships
